import Mathlib

/-!
Verification of the quiz application's core logic (files `app.py` and `db.py`):
question selection, option shuffling, free-text scoring, quiz-session score
persistence, and visibility / access resolution.  Python functions are embedded
as executable Lean definitions; `random.shuffle` is modelled by an oracle that
threads an abstract RNG state and is assumed to return a permutation of its
input.  Fallible Python code (uncaught exceptions) is embedded with an explicit
`crash` result.
-/

namespace Knowting

/-! ## Data model

A question row as produced by `db.get_test_questions`:
`{id, tag, question, options, answer_index, explanation}` (the fields the core
logic reads). -/

structure Question where
  id : Nat
  tag : String
  question : String
  options : List String
  answer_index : Nat
  explanation : String
deriving DecidableEq, Repr

/-- The per-question history map returned by `db.get_question_stats`:
`{question_id: {"correct": c, "wrong": w}}`, embedded as an association list
keyed by question id with value `(correct, wrong)`. -/
abbrev Stats := List (Nat × Nat × Nat)

/-! ## Access resolver: `db.get_effective_visibility` (db.py 1592-1608) -/

/-- `visibility_order = {"hidden": 0, "private": 1, "restricted": 2, "public": 3}`
together with the `.get(v, 3)` default used in `get_effective_visibility`. -/
def visibilityLevel (v : String) : Nat :=
  if v = "hidden" then 0
  else if v = "private" then 1
  else if v = "restricted" then 2
  else if v = "public" then 3
  else 3

/-- The `levels` list of `get_effective_visibility`. -/
def visibilityLevels : List String := ["hidden", "private", "restricted", "public"]

/-- `db.get_effective_visibility(test_visibility, program_visibility)`:
returns `levels[min(test_level, program_level)]`. -/
def get_effective_visibility (test_visibility program_visibility : String) : String :=
  let test_level := visibilityLevel test_visibility
  let program_level := visibilityLevel program_visibility
  visibilityLevels.getD (min test_level program_level) ""

/-! ## Difficulty score: `app._difficulty_score` (app.py 48-56)

Python computes `wrong / total` with float division; we embed the score in `ℚ`
(the two are equal on every value the claims mention, and the selection engine
only ever compares scores). -/

/-- `app._difficulty_score(q, question_stats)`:
`0.5` if the question has no stats entry, `0.5` if `correct + wrong == 0`,
otherwise `wrong / (correct + wrong)`. -/
def difficulty_score (q : Question) (question_stats : Stats) : ℚ :=
  match question_stats.lookup q.id with
  | none => 1/2
  | some (c, w) =>
      let total := c + w
      if total = 0 then 1/2 else (w : ℚ) / (total : ℚ)

/-! ## Selection engine: `app.select_balanced_questions` (app.py 59-101)

`random.shuffle` is modelled by an oracle `shuffle : ρ → List Question →
List Question × ρ` threading an abstract RNG state `ρ`; every theorem assumes
only that the oracle returns a permutation of its input.  The round-robin
`while` loop is embedded with explicit fuel; a Python runtime error
(`ZeroDivisionError` from `tag_index % len(tag_list)` with an empty list, or a
dict `KeyError`) is an explicit `crash` result, so termination and crash
freedom are provable statements rather than modelling assumptions. -/

/-- Result of running a piece of Python code that may raise. -/
inductive PyResult (α : Type) where
  | ok : α → PyResult α
  | crash : PyResult α
  | outOfFuel : PyResult α
deriving DecidableEq, Repr

/-- Keys of a Python dict built by insertion, skipping keys already seen. -/
def dedupFirstAux (seen : List String) : List String → List String
  | [] => []
  | x :: xs =>
      if x ∈ seen then dedupFirstAux seen xs
      else x :: dedupFirstAux (x :: seen) xs

/-- Keys of a Python dict built by insertion (`questions_by_tag`), in
first-insertion order: first occurrence of each tag. -/
def dedupFirst (l : List String) : List String := dedupFirstAux [] l

/-- `questions_by_tag[tag].pop(0)`: drop the head of the bucket stored under
`t` (dict update; other keys untouched). -/
def bucketPop (bs : List (String × List Question)) (t : String) :
    List (String × List Question) :=
  bs.map fun p => if p.1 = t then (p.1, p.2.tail) else p

/-- The round-robin `while` loop of `select_balanced_questions`
(app.py 90-98), one fuel unit per iteration.  State: `selected` (drawn so
far), `buckets` (=`questions_by_tag`), `tag_list`, `tag_index`.
`tag_list[tag_index % len(tag_list)]` with an empty `tag_list` raises in
Python (`crash`), as does a dict access on a missing key. -/
def rrLoop (num_questions : Nat) :
    Nat → List Question → List (String × List Question) → List String → Nat →
    PyResult (List Question)
  | 0, _, _, _, _ => .outOfFuel
  | fuel + 1, selected, buckets, tag_list, tag_index =>
    if selected.length < num_questions then
      if tag_list = [] then .crash
      else
        let tag := tag_list.getD (tag_index % tag_list.length) ""
        match buckets.lookup tag with
        | none => .crash
        | some [] =>
            let tl' := tag_list.erase tag
            if tl' = [] then .ok selected
            else rrLoop num_questions fuel selected buckets tl' (tag_index + 1)
        | some (q :: _) =>
            rrLoop num_questions fuel (selected ++ [q])
              (bucketPop buckets tag) tag_list (tag_index + 1)
    else .ok selected

/-- In-bucket sort `questions_by_tag[tag].sort(key=difficulty, reverse=True)`:
stable, descending by difficulty score (app.py 79-82). -/
def sortBucketDesc (s : Stats) (b : List Question) : List Question :=
  b.mergeSort fun a b => decide (difficulty_score b s ≤ difficulty_score a s)

/-- `for tag in questions_by_tag: random.shuffle(questions_by_tag[tag])`
(app.py 84): shuffle every bucket in key order, threading the RNG. -/
def shuffleBuckets {ρ : Type} (shuffle : ρ → List Question → List Question × ρ) :
    ρ → List (String × List Question) → List (String × List Question) × ρ
  | r, [] => ([], r)
  | r, (t, b) :: rest =>
      let p := shuffle r b
      let q := shuffleBuckets shuffle p.2 rest
      ((t, p.1) :: q.1, q.2)

/-- `filtered = [q for q in questions if q["tag"] in selected_tags]`
(app.py 61). -/
def filteredQuestions (questions : List Question)
    (selected_tags : List String) : List Question :=
  questions.filter fun q => decide (q.tag ∈ selected_tags)

/-- `tag_list = list(questions_by_tag.keys())` (app.py 87): the distinct tags
of the filtered pool in first-appearance (dict insertion) order. -/
def tagListOf (filtered : List Question) : List String :=
  dedupFirst (filtered.map (·.tag))

/-- `questions_by_tag` as built by the loop of app.py 70-75: each key maps to
the filtered questions carrying that tag, in pool order. -/
def rawBucketsOf (filtered : List Question) : List (String × List Question) :=
  (tagListOf filtered).map fun t => (t, filtered.filter fun q => q.tag == t)

/-- The per-bucket preparation of app.py 77-84: sort each bucket descending by
difficulty when `question_stats` is truthy, otherwise shuffle each bucket. -/
def preparedBuckets {ρ : Type}
    (shuffle : ρ → List Question → List Question × ρ) (r : ρ)
    (filtered : List Question) (question_stats : Option Stats) :
    List (String × List Question) × ρ :=
  match question_stats with
  | some s =>
      if s.isEmpty then shuffleBuckets shuffle r (rawBucketsOf filtered)
      else ((rawBucketsOf filtered).map fun p => (p.1, sortBucketDesc s p.2), r)
  | none => shuffleBuckets shuffle r (rawBucketsOf filtered)

/-- `app.select_balanced_questions(questions, selected_tags, num_questions,
question_stats)` (app.py 59-101).  `question_stats = none` is Python's
`None`; `if question_stats:` is dict truthiness, so an empty dict also takes
the shuffle branch. -/
def select_balanced_questions {ρ : Type}
    (shuffle : ρ → List Question → List Question × ρ) (fuel : Nat) (r : ρ)
    (questions : List Question) (selected_tags : List String)
    (num_questions : Nat) (question_stats : Option Stats) :
    PyResult (List Question) × ρ :=
  let filtered := filteredQuestions questions selected_tags
  if filtered = [] then (.ok [], r)
  else if filtered.length ≤ num_questions then
    let p := shuffle r filtered
    (.ok p.1, p.2)
  else
    let bp := preparedBuckets shuffle r filtered question_stats
    match rrLoop num_questions fuel [] bp.1 (tagListOf filtered) 0 with
    | .ok sel =>
        let p := shuffle bp.2 sel
        (.ok p.1, p.2)
    | .crash => (.crash, bp.2)
    | .outOfFuel => (.outOfFuel, bp.2)

/-! ## Option shuffling: `app.shuffle_question_options` (app.py 104-112) -/

/-- `app.shuffle_question_options(questions)`: for each question, shuffle a
copy of its options and relocate `answer_index` to
`shuffled.index(correct_option)` (first position of the originally-correct
option string).  The per-question `random.shuffle` is the oracle `shuffleS`. -/
def shuffle_question_options {ρ : Type}
    (shuffleS : ρ → List String → List String × ρ) :
    ρ → List Question → List Question × ρ
  | r, [] => ([], r)
  | r, q :: qs =>
      let correct_option := q.options.getD q.answer_index ""
      let p := shuffleS r q.options
      let rest := shuffle_question_options shuffleS p.2 qs
      ({ q with options := p.1, answer_index := p.1.indexOf correct_option } :: rest.1,
       rest.2)

/-! ## Free-text answer submission (app.py 477-494)

The `difficult`-level submit handler of `show_quiz`: always runs to
completion for any submitted string (no validation branch), scores by
case-insensitive, whitespace-trimmed equality with the option at
`answer_index`, and appends the question to the wrong-questions buffer when
incorrect. -/

structure SubmitResult where
  score : Nat
  wrong_questions : List Question
  answered : Bool
  is_correct : Bool
deriving DecidableEq, Repr

/-- Python `str.strip()` at the code-point level: drop leading and trailing
whitespace. -/
def pyStrip (s : List Char) : List Char :=
  ((s.dropWhile Char.isWhitespace).reverse.dropWhile Char.isWhitespace).reverse

/-- Python `s.strip().lower()`: trim surrounding whitespace, then lowercase
every code point. -/
def pyNorm (s : String) : List Char :=
  (pyStrip s.data).map Char.toLower

/-- The free-text submit handler: `is_correct = user_text.strip().lower() ==
correct_text.strip().lower()`, then score / wrong-buffer update and
`answered = True`. -/
def submit_free_text (user_text : String) (question : Question)
    (score : Nat) (wrong_questions : List Question) : SubmitResult :=
  let correct_text := question.options.getD question.answer_index ""
  let is_correct := pyNorm user_text == pyNorm correct_text
  { score := if is_correct then score + 1 else score
    wrong_questions :=
      if is_correct then wrong_questions else wrong_questions ++ [question]
    answered := true
    is_correct := is_correct }

/-! ## Theorems -/

/-- C1: for every pair of visibility levels, `get_effective_visibility`
returns the more restrictive (minimum) of the two under
`hidden(0) < private(1) < restricted(2) < public(3)`: it returns whichever
argument has the smaller level; in particular
`effective_visibility("private", "public") = "private"` and
`effective_visibility("public", "restricted") = "restricted"`; and whenever
the two levels differ it never returns the more open (maximum) one. -/
theorem get_effective_visibility_is_min (a b : String)
    (ha : a ∈ visibilityLevels) (hb : b ∈ visibilityLevels) :
    get_effective_visibility a b =
      (if visibilityLevel a ≤ visibilityLevel b then a else b) ∧
    get_effective_visibility "private" "public" = "private" ∧
    get_effective_visibility "public" "restricted" = "restricted" ∧
    (a ≠ b → get_effective_visibility a b ≠
      (if visibilityLevel a ≤ visibilityLevel b then b else a)) := by
  fin_cases ha <;> fin_cases hb <;> decide

/-- Closed witness for C1 at test="private", program="public". -/
theorem get_effective_visibility_is_min_witness :
    get_effective_visibility "private" "public" =
      (if visibilityLevel "private" ≤ visibilityLevel "public"
       then "private" else "public") ∧
    get_effective_visibility "private" "public" = "private" ∧
    get_effective_visibility "public" "restricted" = "restricted" ∧
    ("private" ≠ "public" → get_effective_visibility "private" "public" ≠
      (if visibilityLevel "private" ≤ visibilityLevel "public"
       then "public" else "private")) :=
  get_effective_visibility_is_min "private" "public" (by decide) (by decide)

/-- C4: the difficulty score is `wrong / (correct + wrong)` whenever the
question has a stats entry with a positive attempt total, and `0.5` when the
question has no stats entry or both counts are zero; in particular
`{correct: 0, wrong: 0}` scores `0.5` and `{correct: 3, wrong: 1}` scores
`0.25`. -/
theorem difficulty_score_spec (q : Question) (stats : Stats) :
    (stats.lookup q.id = none → difficulty_score q stats = 1/2) ∧
    (∀ c w : Nat, stats.lookup q.id = some (c, w) →
      (0 < c + w →
        difficulty_score q stats = (w : ℚ) / ((c : ℚ) + (w : ℚ))) ∧
      (c = 0 → w = 0 → difficulty_score q stats = 1/2)) ∧
    difficulty_score q [(q.id, 0, 0)] = 1/2 ∧
    difficulty_score q [(q.id, 3, 1)] = 1/4 := by
  refine ⟨fun h => by simp [difficulty_score, h], fun c w h => ?_, ?_, ?_⟩
  · refine ⟨fun hpos => ?_, fun hc hw => ?_⟩
    · have htot : c + w ≠ 0 := Nat.pos_iff_ne_zero.mp hpos
      simp only [difficulty_score, h, htot, if_false]
      push_cast
      ring
    · subst hc; subst hw
      simp [difficulty_score, h]
  · simp [difficulty_score, List.lookup]
  · simp [difficulty_score, List.lookup]

/-- Closed witness for C4: a concrete question scored against concrete
stats maps exercising the no-entry, zero-total and positive-total cases. -/
theorem difficulty_score_spec_witness :
    difficulty_score ⟨1, "t", "p", ["a", "b"], 0, ""⟩ [(2, 0, 0)] = 1/2 ∧
    difficulty_score ⟨1, "t", "p", ["a", "b"], 0, ""⟩ [(1, 0, 0)] = 1/2 ∧
    difficulty_score ⟨1, "t", "p", ["a", "b"], 0, ""⟩ [(1, 3, 1)] = (1 : ℚ) / (3 + 1) := by
  refine ⟨?_, ?_, ?_⟩
  · exact (difficulty_score_spec ⟨1, "t", "p", ["a", "b"], 0, ""⟩ [(2, 0, 0)]).1 (by decide)
  · exact ((difficulty_score_spec ⟨1, "t", "p", ["a", "b"], 0, ""⟩
      [(1, 0, 0)]).2.1 0 0 (by decide)).2 rfl rfl
  · have := ((difficulty_score_spec ⟨1, "t", "p", ["a", "b"], 0, ""⟩
      [(1, 3, 1)]).2.1 3 1 (by decide)).1 (by decide)
    rw [this]; norm_num

/-- C2: whenever the requested count is at least the number of questions whose
tag is in the active-tag set, `select_balanced_questions` returns every
tag-filtered question exactly once: the result is a permutation of the
filtered pool (so equal as a multiset, order irrelevant). -/
theorem select_balanced_questions_count_ge {ρ : Type}
    (shuffle : ρ → List Question → List Question × ρ)
    (hsh : ∀ r l, (shuffle r l).1.Perm l)
    (fuel : Nat) (r : ρ) (questions : List Question)
    (selected_tags : List String) (num_questions : Nat)
    (question_stats : Option Stats)
    (hcount : (filteredQuestions questions selected_tags).length
      ≤ num_questions) :
    ∃ res r',
      select_balanced_questions shuffle fuel r questions selected_tags
        num_questions question_stats = (.ok res, r') ∧
      res.Perm (filteredQuestions questions selected_tags) := by
  by_cases hnil : filteredQuestions questions selected_tags = []
  · refine ⟨[], r, ?_, by rw [hnil]⟩
    simp [select_balanced_questions, hnil]
  · refine ⟨(shuffle r (filteredQuestions questions selected_tags)).1,
      (shuffle r (filteredQuestions questions selected_tags)).2,
      ?_, hsh r _⟩
    simp [select_balanced_questions, hnil, hcount]

/-- Closed witness for C2: identity shuffle oracle, two questions, count 5. -/
theorem select_balanced_questions_count_ge_witness :
    ∃ res r',
      select_balanced_questions (ρ := Unit) (fun r l => (l, r)) 9 ()
        [⟨1, "m", "p", ["a", "b"], 0, ""⟩, ⟨2, "h", "p", ["a", "b"], 0, ""⟩]
        ["m", "h"] 5 none = (.ok res, r') ∧
      res.Perm (filteredQuestions
        [⟨1, "m", "p", ["a", "b"], 0, ""⟩, ⟨2, "h", "p", ["a", "b"], 0, ""⟩]
        ["m", "h"]) :=
  select_balanced_questions_count_ge (fun r l => (l, r))
    (fun _ l => List.Perm.refl l) 9 () _ _ 5 none (by decide)

/-- C9: with an empty active-tag set, or when no question's tag belongs to the
active-tag set, `select_balanced_questions` returns the empty list (the
normal `ok` result, not an error). -/
theorem select_balanced_questions_empty_filter {ρ : Type}
    (shuffle : ρ → List Question → List Question × ρ)
    (fuel : Nat) (r : ρ) (questions : List Question)
    (selected_tags : List String) (num_questions : Nat)
    (question_stats : Option Stats)
    (hempty : selected_tags = [] ∨ ∀ q ∈ questions, q.tag ∉ selected_tags) :
    select_balanced_questions shuffle fuel r questions selected_tags
      num_questions question_stats = (.ok [], r) := by
  have hnil : filteredQuestions questions selected_tags = [] := by
    rw [filteredQuestions, List.filter_eq_nil_iff]
    intro q hq
    rcases hempty with h | h
    · subst h; simp
    · simpa using h q hq
  simp [select_balanced_questions, hnil]

/-- Closed witness for C9: a pool whose tags all lie outside the active set. -/
theorem select_balanced_questions_empty_filter_witness :
    select_balanced_questions (ρ := Unit) (fun r l => (l, r)) 9 ()
      [⟨1, "m", "p", ["a", "b"], 0, ""⟩] ["x"] 3 none = (.ok [], ()) :=
  select_balanced_questions_empty_filter (fun r l => (l, r)) 9 () _ ["x"] 3 none
    (Or.inr (by decide))

/-- Placeholder question used only as the default of safe list indexing in
statements (never reached under the stated bounds). -/
def dummyQuestion : Question := ⟨0, "", "", [], 0, ""⟩

/-- `shuffle_question_options` transforms questions one-for-one. -/
theorem shuffle_question_options_length {ρ : Type}
    (shuffleS : ρ → List String → List String × ρ) :
    ∀ (r : ρ) (qs : List Question),
      (shuffle_question_options shuffleS r qs).1.length = qs.length := by
  intro r qs
  induction qs generalizing r with
  | nil => rfl
  | cons q qs ih => simp [shuffle_question_options, ih]

/-- C5: option shuffling is answer-preserving.  For every question in the
input list whose `answer_index` is a valid index into its options, the option
string found at the question's new `answer_index` after
`shuffle_question_options` equals the option string that was at the original
`answer_index` before shuffling. -/
theorem shuffle_question_options_answer_preserving {ρ : Type}
    (shuffleS : ρ → List String → List String × ρ)
    (hsh : ∀ (r : ρ) (l : List String), (shuffleS r l).1.Perm l)
    (r : ρ) (qs : List Question) (i : Nat) (hi : i < qs.length)
    (hvalid : (qs.getD i dummyQuestion).answer_index
      < (qs.getD i dummyQuestion).options.length) :
    (((shuffle_question_options shuffleS r qs).1.getD i dummyQuestion).options.getD
        ((shuffle_question_options shuffleS r qs).1.getD i dummyQuestion).answer_index ""
      = (qs.getD i dummyQuestion).options.getD
          (qs.getD i dummyQuestion).answer_index "") := by
  induction qs generalizing r i with
  | nil => exact absurd hi (by simp)
  | cons q qs ih =>
    cases i with
    | zero =>
      simp only [List.getD_eq_getElem?_getD, List.getElem?_cons_zero,
        Option.getD_some] at hvalid ⊢
      simp only [shuffle_question_options, List.getElem?_cons_zero, Option.getD_some]
      set correct := q.options.getD q.answer_index "" with hcorr
      have hc2 : correct = q.options[q.answer_index] := by
        rw [hcorr, List.getD_eq_getElem?_getD, List.getElem?_eq_getElem hvalid,
          Option.getD_some]
      have hmem : correct ∈ q.options := by
        rw [hc2]; exact List.getElem_mem hvalid
      have hmem' : correct ∈ (shuffleS r q.options).1 :=
        ((hsh r q.options).mem_iff).mpr hmem
      have hidx : (shuffleS r q.options).1.indexOf correct
          < (shuffleS r q.options).1.length :=
        List.indexOf_lt_length.mpr hmem'
      rw [List.getElem?_eq_getElem hidx, Option.getD_some,
        List.getElem?_eq_getElem hvalid, Option.getD_some,
        List.getElem_indexOf hidx]
      exact hc2
    | succ i =>
      simp only [List.getD_eq_getElem?_getD, List.getElem?_cons_succ] at hvalid ⊢
      simp only [shuffle_question_options, List.getElem?_cons_succ]
      have hi' : i < qs.length := by simpa using hi
      simpa [List.getD_eq_getElem?_getD] using
        ih ((shuffleS r q.options).2) i hi' (by
          simpa [List.getD_eq_getElem?_getD] using hvalid)

/-- Closed witness for C5: a three-option question whose options are reversed
by the oracle; the correct option "b" stays at the relocated index. -/
theorem shuffle_question_options_answer_preserving_witness :
    (((shuffle_question_options (ρ := Unit) (fun r l => (l.reverse, r)) ()
        [⟨1, "t", "p", ["a", "b", "c"], 1, ""⟩]).1.getD 0 dummyQuestion).options.getD
      (((shuffle_question_options (ρ := Unit) (fun r l => (l.reverse, r)) ()
        [⟨1, "t", "p", ["a", "b", "c"], 1, ""⟩]).1.getD 0 dummyQuestion).answer_index) ""
      = ([⟨1, "t", "p", ["a", "b", "c"], 1, ""⟩].getD 0 dummyQuestion).options.getD
          (([⟨1, "t", "p", ["a", "b", "c"], 1, ""⟩].getD 0
            dummyQuestion).answer_index) "") :=
  shuffle_question_options_answer_preserving (fun r l => (l.reverse, r))
    (fun _ l => List.reverse_perm l) () [⟨1, "t", "p", ["a", "b", "c"], 1, ""⟩]
    0 (by decide) (by decide)

/-- C7 counterexample: the claim "an empty submitted string is scored
incorrect" fails when the option stored at `answer_index` is itself
whitespace-only: submitting `""` against correct option `"  "` is scored
correct (both sides trim to the empty string), and the score increments. -/
theorem submit_free_text_empty_cex :
    (submit_free_text "" ⟨1, "t", "p", ["  ", "x"], 0, ""⟩ 0 []).is_correct = true ∧
    (submit_free_text "" ⟨1, "t", "p", ["  ", "x"], 0, ""⟩ 0 []).score = 1 := by
  constructor <;> decide

/-- C7 (amended): every submitted free-text string is accepted — the handler
always completes, marking the question answered — and correctness is exactly
case-insensitive, whitespace-trimmed equality with the option at
`answer_index`; an empty submitted string is scored incorrect whenever that
option does not itself trim (case-insensitively) to the empty string. -/
theorem submit_free_text_spec (user_text : String) (question : Question)
    (score : Nat) (wrong : List Question) :
    (submit_free_text user_text question score wrong).answered = true ∧
    ((submit_free_text user_text question score wrong).is_correct = true ↔
      pyNorm user_text = pyNorm (question.options.getD question.answer_index "")) ∧
    (pyNorm (question.options.getD question.answer_index "") ≠ [] →
      (submit_free_text "" question score wrong).is_correct = false) := by
  refine ⟨rfl, by simp [submit_free_text], fun h => ?_⟩
  have h0 : pyNorm "" = [] := rfl
  simp only [submit_free_text, beq_eq_false_iff_ne, ne_eq, h0]
  exact fun hc => h hc.symm

/-- Closed witness for C7 (amended): with a non-blank correct option, the
empty submission is scored incorrect, and a padded mixed-case submission of
the correct text is accepted and scored correct. -/
theorem submit_free_text_spec_witness :
    (submit_free_text "" ⟨1, "t", "p", ["a", "b"], 0, ""⟩ 0 []).is_correct = false ∧
    (submit_free_text " A " ⟨1, "t", "p", ["a", "b"], 0, ""⟩ 0 []).answered = true := by
  constructor
  · exact (submit_free_text_spec "" ⟨1, "t", "p", ["a", "b"], 0, ""⟩ 0 []).2.2
      (by decide)
  · exact (submit_free_text_spec " A " ⟨1, "t", "p", ["a", "b"], 0, ""⟩ 0 []).1

/-! ## Test listing: `db.get_all_tests` (db.py 524-568)

The SQL query is embedded relationally: a database value holds the rows of
the tables the query touches, `LEFT JOIN ... / xx.id IS NOT NULL` becomes row
existence, and the scalar subquery `(SELECT username FROM users WHERE id=?)`
becomes an `Option String` (SQL `NULL` compares false). -/

structure TestRow where
  id : Nat
  owner_id : Option Nat
  title : String
  visibility : String
deriving DecidableEq, Repr

structure UserRow where
  id : Nat
  username : String
deriving DecidableEq, Repr

structure TestCollaborator where
  test_id : Nat
  user_email : String
  user_id : Option Nat
  status : String
deriving DecidableEq, Repr

structure ProgramTest where
  program_id : Nat
  test_id : Nat
deriving DecidableEq, Repr

structure ProgramCollaborator where
  program_id : Nat
  user_email : String
  user_id : Option Nat
  status : String
deriving DecidableEq, Repr

structure DB where
  tests : List TestRow
  users : List UserRow
  test_collaborators : List TestCollaborator
  program_tests : List ProgramTest
  program_collaborators : List ProgramCollaborator
deriving Repr

/-- `(SELECT username FROM users WHERE id = ?)`: the username of the user row
with the given id, or SQL `NULL`. -/
def usernameOf (db : DB) (uid : Nat) : Option String :=
  (db.users.find? fun u => u.id == uid).map (·.username)

/-- The collaborator-matching condition used by both joins:
`xx.user_id = ? OR xx.user_email = (SELECT username FROM users WHERE id = ?)`
(a `NULL` on either side of `=` is false in SQL). -/
def collabMatches (db : DB) (uid : Nat) (c_user_id : Option Nat)
    (c_email : String) : Bool :=
  c_user_id == some uid || usernameOf db uid == some c_email

/-- `db.get_all_tests(user_id)`: the authenticated query filters on
`visibility IN ('public','private','restricted') OR owner OR accepted direct
collaborator OR accepted program collaborator`; the anonymous query keeps only
the visibility disjunct.  Python's `if user_id:` is truthiness; `none` models
the anonymous `None` (SQLite row ids are ≥ 1, so `0` never occurs as a real
user id). -/
def get_all_tests (db : DB) (user_id : Option Nat) : List TestRow :=
  match user_id with
  | some uid =>
      db.tests.filter fun t =>
        decide (t.visibility ∈ ["public", "private", "restricted"]) ||
        t.owner_id == some uid ||
        db.test_collaborators.any (fun tc =>
          tc.test_id == t.id && collabMatches db uid tc.user_id tc.user_email &&
          tc.status == "accepted") ||
        db.program_tests.any (fun pt =>
          pt.test_id == t.id &&
          db.program_collaborators.any (fun pc =>
            pc.program_id == pt.program_id &&
            collabMatches db uid pc.user_id pc.user_email &&
            pc.status == "accepted"))
  | none =>
      db.tests.filter fun t =>
        decide (t.visibility ∈ ["public", "private", "restricted"])

/-- C6: a test is listed for a user exactly when its visibility is `public`,
`private` or `restricted` (all three globally listable, also anonymously), or
the user owns it, or the user holds an accepted direct collaborator record,
or the user holds an accepted collaborator record on a program containing the
test; a `hidden` test meeting none of the last three conditions is never
returned. -/
theorem get_all_tests_access (db : DB) (uid : Nat) (t : TestRow)
    (ht : t ∈ db.tests) :
    (t ∈ get_all_tests db (some uid) ↔
      t.visibility ∈ ["public", "private", "restricted"] ∨
      t.owner_id = some uid ∨
      (∃ tc ∈ db.test_collaborators, tc.test_id = t.id ∧
        (tc.user_id = some uid ∨ usernameOf db uid = some tc.user_email) ∧
        tc.status = "accepted") ∨
      (∃ pt ∈ db.program_tests, pt.test_id = t.id ∧
        ∃ pc ∈ db.program_collaborators, pc.program_id = pt.program_id ∧
          (pc.user_id = some uid ∨ usernameOf db uid = some pc.user_email) ∧
          pc.status = "accepted")) ∧
    (t ∈ get_all_tests db none ↔
      t.visibility ∈ ["public", "private", "restricted"]) ∧
    (t.visibility = "hidden" →
      t.owner_id ≠ some uid →
      (∀ tc ∈ db.test_collaborators, tc.test_id = t.id →
        (tc.user_id = some uid ∨ usernameOf db uid = some tc.user_email) →
        tc.status ≠ "accepted") →
      (∀ pt ∈ db.program_tests, pt.test_id = t.id →
        ∀ pc ∈ db.program_collaborators, pc.program_id = pt.program_id →
          (pc.user_id = some uid ∨ usernameOf db uid = some pc.user_email) →
          pc.status ≠ "accepted") →
      t ∉ get_all_tests db (some uid)) := by
  have hmain : t ∈ get_all_tests db (some uid) ↔
      t.visibility ∈ ["public", "private", "restricted"] ∨
      t.owner_id = some uid ∨
      (∃ tc ∈ db.test_collaborators, tc.test_id = t.id ∧
        (tc.user_id = some uid ∨ usernameOf db uid = some tc.user_email) ∧
        tc.status = "accepted") ∨
      (∃ pt ∈ db.program_tests, pt.test_id = t.id ∧
        ∃ pc ∈ db.program_collaborators, pc.program_id = pt.program_id ∧
          (pc.user_id = some uid ∨ usernameOf db uid = some pc.user_email) ∧
          pc.status = "accepted") := by
    simp only [get_all_tests, List.mem_filter, ht, true_and, Bool.or_eq_true,
      decide_eq_true_iff, beq_iff_eq, List.any_eq_true, Bool.and_eq_true,
      collabMatches]
    constructor
    · rintro (((hv | ho) | ⟨tc, htc, ⟨hid, hm⟩, hst⟩) | ⟨pt, hpt, hid, pc, hpc, hpm, hst⟩)
      · exact Or.inl hv
      · exact Or.inr (Or.inl ho)
      · exact Or.inr (Or.inr (Or.inl ⟨tc, htc, hid, by simpa using hm, hst⟩))
      · rcases hpm with ⟨hpid, hm⟩
        exact Or.inr (Or.inr (Or.inr ⟨pt, hpt, hid, pc, hpc, hpid,
          by simpa using hm, hst⟩))
    · rintro (hv | ho | ⟨tc, htc, hid, hm, hst⟩ | ⟨pt, hpt, hid, pc, hpc, hpid, hm, hst⟩)
      · exact Or.inl (Or.inl (Or.inl hv))
      · exact Or.inl (Or.inl (Or.inr ho))
      · exact Or.inl (Or.inr ⟨tc, htc, ⟨hid, by simpa using hm⟩, hst⟩)
      · exact Or.inr ⟨pt, hpt, hid, pc, hpc, ⟨hpid, by simpa using hm⟩, hst⟩
  refine ⟨hmain, ?_, ?_⟩
  · simp [get_all_tests, List.mem_filter, ht]
  · intro hv hown hdc hpc hmem
    rcases hmain.mp hmem with h | h | ⟨tc, htc, hid, hm, hst⟩ |
      ⟨pt, hpt, hid, pc, hpcm, hpid, hm, hst⟩
    · rw [hv] at h; simp at h
    · exact hown h
    · exact hdc tc htc hid hm hst
    · exact hpc pt hpt hid pc hpcm hpid hm hst

/-- Concrete database for the C6 witness: one hidden test owned by user 1,
viewer 7 holding an accepted direct collaborator record via email. -/
def dbC6 : DB :=
  { tests := [⟨10, some 1, "T", "hidden"⟩]
    users := [⟨7, "eve@x"⟩]
    test_collaborators := [⟨10, "eve@x", none, "accepted"⟩]
    program_tests := []
    program_collaborators := [] }

/-- Closed witness for C6 at a concrete database: the hidden test is listed
for the accepted email-matched collaborator (user 7) and is not listed
anonymously. -/
theorem get_all_tests_access_witness :
    (⟨10, some 1, "T", "hidden"⟩ ∈ get_all_tests dbC6 (some 7) ↔
      TestRow.visibility ⟨10, some 1, "T", "hidden"⟩
          ∈ ["public", "private", "restricted"] ∨
      TestRow.owner_id ⟨10, some 1, "T", "hidden"⟩ = some 7 ∨
      (∃ tc ∈ dbC6.test_collaborators, tc.test_id = 10 ∧
        (tc.user_id = some 7 ∨ usernameOf dbC6 7 = some tc.user_email) ∧
        tc.status = "accepted") ∨
      (∃ pt ∈ dbC6.program_tests, pt.test_id = 10 ∧
        ∃ pc ∈ dbC6.program_collaborators, pc.program_id = pt.program_id ∧
          (pc.user_id = some 7 ∨ usernameOf dbC6 7 = some pc.user_email) ∧
          pc.status = "accepted")) ∧
    (⟨10, some 1, "T", "hidden"⟩ ∈ get_all_tests dbC6 none ↔
      TestRow.visibility ⟨10, some 1, "T", "hidden"⟩
        ∈ ["public", "private", "restricted"]) ∧
    (TestRow.visibility ⟨10, some 1, "T", "hidden"⟩ = "hidden" →
      TestRow.owner_id ⟨10, some 1, "T", "hidden"⟩ ≠ some 7 →
      (∀ tc ∈ dbC6.test_collaborators, tc.test_id = 10 →
        (tc.user_id = some 7 ∨ usernameOf dbC6 7 = some tc.user_email) →
        tc.status ≠ "accepted") →
      (∀ pt ∈ dbC6.program_tests, pt.test_id = 10 →
        ∀ pc ∈ dbC6.program_collaborators, pc.program_id = pt.program_id →
          (pc.user_id = some 7 ∨ usernameOf dbC6 7 = some pc.user_email) →
          pc.status ≠ "accepted") →
      ⟨10, some 1, "T", "hidden"⟩ ∉ get_all_tests dbC6 (some 7)) :=
  get_all_tests_access dbC6 7 ⟨10, some 1, "T", "hidden"⟩ (by decide)

/-! ## Session score persistence: `show_quiz` completion (app.py 360-458)

The Streamlit session-state fields that govern the final-score write are
embedded as a labelled transition system.  One state records the fields the
guard reads (`quiz_started`, `session_score_saved`, `current_session_id`
presence, login status) plus a counter of `update_session_score` calls made
against the current Session record.  Events are the code paths that touch
these fields; each guard mirrors which pages the router (app.py 1359-1383)
can actually render: the test/program configuration pages that start a quiz
are only reachable while no quiz is running, which is why the start buttons
(app.py 331-357 and 1263-1287) never reset `session_score_saved`
themselves. -/

structure QuizAppState where
  logged : Bool
  quiz_started : Bool
  session_score_saved : Bool
  has_session : Bool
  session_writes : Nat
deriving DecidableEq, Repr

/-- The state of a fresh Streamlit session: no keys set, no writes. -/
def initQuizState : QuizAppState :=
  { logged := false, quiz_started := false, session_score_saved := false
    has_session := false, session_writes := 0 }

inductive QuizEvent where
  /-- `_try_login` succeeds (app.py 28-45). -/
  | login
  /-- logout button: clears the whole session state (app.py 1322-1326). -/
  | logout
  /-- start button of `show_test_config` (app.py 331-357). -/
  | startTest
  /-- start button of `show_program_config` (app.py 1263-1287). -/
  | startProgram
  /-- `_start_quiz_from_wrong` from the dashboard (app.py 633-669). -/
  | startWrong
  /-- `show_quiz` renders the round-completion view (app.py 365-386). -/
  | completionRender
  /-- retry-wrong-questions button on the completion view (app.py 430-449). -/
  | retryWrong
  /-- `reset_quiz` via abandon or back-to-start (app.py 115-122, 451-456, 553). -/
  | resetQuiz
deriving DecidableEq, Repr

/-- One step of the quiz flow; `none` when the event's source location is not
reachable in the given state (per the page router, app.py 1359-1383). -/
def quizStep (s : QuizAppState) : QuizEvent → Option QuizAppState
  | .login => if s.logged then none else some { s with logged := true }
  | .logout => if s.logged then some initQuizState else none
  | .startTest =>
      -- `Configurar Test` is only rendered when no quiz is running; the
      -- handler creates a Session when logged in but leaves
      -- `session_score_saved` untouched (app.py 343-356).
      if s.quiz_started then none
      else some { s with quiz_started := true, has_session := s.logged,
                         session_writes := 0 }
  | .startProgram =>
      -- same shape as startTest (app.py 1274-1287), also without touching
      -- `session_score_saved`.
      if s.quiz_started ∨ ¬s.logged then none
      else some { s with quiz_started := true, has_session := s.logged,
                         session_writes := 0 }
  | .startWrong =>
      -- dashboard practice start: requires login, resets the guard
      -- (app.py 666).
      if s.quiz_started ∨ ¬s.logged then none
      else some { s with quiz_started := true, has_session := true,
                         session_writes := 0, session_score_saved := false }
  | .completionRender =>
      -- the guarded write (app.py 372-375).
      if s.quiz_started then
        if s.logged ∧ s.has_session ∧ ¬s.session_score_saved then
          some { s with session_writes := s.session_writes + 1,
                        session_score_saved := true }
        else some s
      else none
  | .retryWrong =>
      -- a fresh Session for the retry round, guard re-armed (app.py 440-448).
      if s.quiz_started then
        some { s with has_session := s.logged, session_writes := 0,
                      session_score_saved := false }
      else none
  | .resetQuiz =>
      -- `reset_quiz` deletes all quiz keys, including the guard.
      if s.quiz_started then
        some { s with quiz_started := false, session_score_saved := false,
                      has_session := false, session_writes := 0 }
      else none

/-- States reachable from a fresh Streamlit session. -/
inductive QuizReachable : QuizAppState → Prop where
  | init : QuizReachable initQuizState
  | step {s s' : QuizAppState} {e : QuizEvent} :
      QuizReachable s → quizStep s e = some s' → QuizReachable s'

/-- Invariant tying the guard flag to the write counter. -/
def QuizInv (s : QuizAppState) : Prop :=
  s.session_writes ≤ 1 ∧
  (s.session_score_saved = true →
    s.session_writes = 1 ∧ s.quiz_started = true ∧ s.logged = true ∧
    s.has_session = true) ∧
  (s.session_score_saved = false → s.session_writes = 0)

theorem quizInv_reachable {s : QuizAppState} (h : QuizReachable s) : QuizInv s := by
  induction h with
  | init => exact ⟨by decide, by decide, fun _ => rfl⟩
  | step hr hstep ih =>
    rename_i s s' e
    obtain ⟨h1, h2, h3⟩ := ih
    cases e <;> simp only [quizStep] at hstep
    · split at hstep
      · exact absurd hstep (by simp)
      · cases hstep
        exact ⟨h1, fun hs => by
          obtain ⟨a, b, _, d⟩ := h2 hs
          exact ⟨a, b, rfl, d⟩, h3⟩
    · split at hstep
      · cases hstep
        exact ⟨by decide, by decide, fun _ => rfl⟩
      · exact absurd hstep (by simp)
    · split at hstep
      · exact absurd hstep (by simp)
      · cases hstep
        rename_i hns
        have hsaved : s.session_score_saved = false := by
          by_contra hc
          have := (h2 (by revert hc; cases s.session_score_saved <;> simp)).2.1
          exact hns this
        exact ⟨by simp, by simp [hsaved], fun _ => rfl⟩
    · split at hstep
      · exact absurd hstep (by simp)
      · cases hstep
        rename_i hcond
        have hsaved : s.session_score_saved = false := by
          by_contra hc
          have := (h2 (by revert hc; cases s.session_score_saved <;> simp)).2.1
          exact hcond (Or.inl this)
        exact ⟨by simp, by simp [hsaved], fun _ => rfl⟩
    · split at hstep
      · exact absurd hstep (by simp)
      · cases hstep
        exact ⟨by simp, by simp, fun _ => rfl⟩
    · split at hstep
      · split at hstep
        · cases hstep
          rename_i hq hg
          exact ⟨by simp [h3 (by simpa using hg.2.2)],
            fun _ => ⟨by simp [h3 (by simpa using hg.2.2)], by simpa using hq,
              hg.1, hg.2.1⟩,
            by simp⟩
        · cases hstep
          exact ⟨h1, h2, h3⟩
      · exact absurd hstep (by simp)
    · split at hstep
      · cases hstep
        exact ⟨by simp, by simp, fun _ => rfl⟩
      · exact absurd hstep (by simp)
    · split at hstep
      · cases hstep
        exact ⟨by simp, by simp, fun _ => rfl⟩
      · exact absurd hstep (by simp)

/-- C8: in every reachable state the current Session record has received at
most one `update_session_score` call; when the round-completion view renders
for an authenticated user with a Session, the write count for that session
becomes exactly 1 and re-rendering the completion view changes nothing (the
`session_score_saved` guard); and every event that starts a new round or a
new quiz leaves the guard cleared and the new session's write count at 0. -/
theorem session_score_saved_once {s : QuizAppState} (h : QuizReachable s) :
    s.session_writes ≤ 1 ∧
    (∀ s', quizStep s .completionRender = some s' →
      (s.logged = true ∧ s.has_session = true → s'.session_writes = 1) ∧
      quizStep s' .completionRender = some s') ∧
    (∀ e s', (e = QuizEvent.startTest ∨ e = QuizEvent.startProgram ∨
        e = QuizEvent.startWrong ∨ e = QuizEvent.retryWrong) →
      quizStep s e = some s' →
      s'.session_score_saved = false ∧ s'.session_writes = 0) := by
  obtain ⟨h1, h2, h3⟩ := quizInv_reachable h
  refine ⟨h1, fun s' hs' => ?_, fun e s' he hs' => ?_⟩
  · simp only [quizStep] at hs'
    split at hs'
    · rename_i hq
      split at hs'
      · rename_i hg
        cases hs'
        refine ⟨fun _ => by simp [h3 (by simpa using hg.2.2)], ?_⟩
        simp [quizStep, hq]
      · rename_i hg
        cases hs'
        refine ⟨fun hl => ?_, by
          simp only [quizStep]
          rw [if_pos hq, if_neg hg]⟩
        have hsaved : s.session_score_saved = true := by
          by_contra hc
          exact hg ⟨hl.1, hl.2, by revert hc; cases s.session_score_saved <;> simp⟩
        exact (h2 hsaved).1
    · exact absurd hs' (by simp)
  · have hsavedfalse : s.quiz_started = false → s.session_score_saved = false := by
      intro hq
      by_contra hc
      have := (h2 (by revert hc; cases s.session_score_saved <;> simp)).2.1
      rw [hq] at this
      exact Bool.false_ne_true this
    rcases he with rfl | rfl | rfl | rfl <;> simp only [quizStep] at hs'
    · split at hs'
      · exact absurd hs' (by simp)
      · rename_i hq
        cases hs'
        exact ⟨hsavedfalse (by simpa using hq), rfl⟩
    · split at hs'
      · exact absurd hs' (by simp)
      · rename_i hq
        cases hs'
        refine ⟨hsavedfalse ?_, rfl⟩
        revert hq
        cases s.quiz_started <;> simp
    · split at hs'
      · exact absurd hs' (by simp)
      · cases hs'
        exact ⟨rfl, rfl⟩
    · split at hs'
      · cases hs'
        exact ⟨rfl, rfl⟩
      · exact absurd hs' (by simp)

/-- Closed witness for C8 at a concrete reachable state: a logged-in user who
has started a test quiz (login, then start). -/
theorem session_score_saved_once_witness :
    (QuizAppState.session_writes
      { logged := true, quiz_started := true, session_score_saved := false,
        has_session := true, session_writes := 0 } ≤ 1) ∧
    (∀ s', quizStep
        { logged := true, quiz_started := true, session_score_saved := false,
          has_session := true, session_writes := 0 } .completionRender = some s' →
      (QuizAppState.logged
          { logged := true, quiz_started := true, session_score_saved := false,
            has_session := true, session_writes := 0 } = true ∧
        QuizAppState.has_session
          { logged := true, quiz_started := true, session_score_saved := false,
            has_session := true, session_writes := 0 } = true →
        s'.session_writes = 1) ∧
      quizStep s' .completionRender = some s') ∧
    (∀ e s', (e = QuizEvent.startTest ∨ e = QuizEvent.startProgram ∨
        e = QuizEvent.startWrong ∨ e = QuizEvent.retryWrong) →
      quizStep
        { logged := true, quiz_started := true, session_score_saved := false,
          has_session := true, session_writes := 0 } e = some s' →
      s'.session_score_saved = false ∧ s'.session_writes = 0) :=
  by
  have h0 : quizStep initQuizState QuizEvent.login =
      some { logged := true, quiz_started := false, session_score_saved := false,
             has_session := false, session_writes := 0 } := by decide
  have h1 : quizStep
      { logged := true, quiz_started := false, session_score_saved := false,
        has_session := false, session_writes := 0 } QuizEvent.startTest =
      some { logged := true, quiz_started := true, session_score_saved := false,
             has_session := true, session_writes := 0 } := by decide
  exact session_score_saved_once
    (QuizReachable.step (QuizReachable.step QuizReachable.init h0) h1)

/-! ### Lemmas about the round-robin loop state

These support C3 (tag coverage) and C10 (termination / crash freedom). -/

/-- Total number of questions still stored across all buckets. -/
def totalSize (bs : List (String × List Question)) : Nat :=
  (bs.map fun p => p.2.length).sum

theorem bucketPop_cons (k : String) (v : List Question)
    (bs : List (String × List Question)) (t : String) :
    bucketPop ((k, v) :: bs) t
      = (if k = t then (k, v.tail) else (k, v)) :: bucketPop bs t := rfl

theorem totalSize_cons (p : String × List Question)
    (bs : List (String × List Question)) :
    totalSize (p :: bs) = p.2.length + totalSize bs := rfl

theorem lookup_bucketPop_self (bs : List (String × List Question)) (t : String)
    (b : List Question) (h : bs.lookup t = some b) :
    (bucketPop bs t).lookup t = some b.tail := by
  induction bs with
  | nil => simp at h
  | cons p bs ih =>
    obtain ⟨k, v⟩ := p
    rw [List.lookup_cons] at h
    by_cases hk : k = t
    · subst hk
      simp only [BEq.refl] at h
      have hv : v = b := by simpa using h
      rw [bucketPop_cons, if_pos rfl, List.lookup_cons]
      simp [hv]
    · have hbeq : (t == k) = false := by
        simp only [beq_eq_false_iff_ne, ne_eq]
        exact fun hc => hk hc.symm
      simp only [hbeq] at h
      rw [bucketPop_cons, if_neg hk, List.lookup_cons]
      simp only [hbeq]
      exact ih h

theorem lookup_bucketPop_ne (bs : List (String × List Question)) (t t' : String)
    (h : t' ≠ t) : (bucketPop bs t).lookup t' = bs.lookup t' := by
  induction bs with
  | nil => simp [bucketPop]
  | cons p bs ih =>
    obtain ⟨k, v⟩ := p
    by_cases hk : k = t
    · subst hk
      have hbeq : (t' == k) = false := by
        simpa only [beq_eq_false_iff_ne, ne_eq] using h
      rw [bucketPop_cons, if_pos rfl, List.lookup_cons, List.lookup_cons]
      simp only [hbeq]
      exact ih
    · rw [bucketPop_cons, if_neg hk, List.lookup_cons, List.lookup_cons]
      cases hbeq : t' == k
      · simp only []
        exact ih
      · rfl

theorem totalSize_bucketPop_le (bs : List (String × List Question)) (t : String) :
    totalSize (bucketPop bs t) ≤ totalSize bs := by
  induction bs with
  | nil => simp [totalSize, bucketPop]
  | cons p bs ih =>
    obtain ⟨k, v⟩ := p
    rw [bucketPop_cons, totalSize_cons, totalSize_cons]
    have hhead : (if k = t then (k, v.tail) else (k, v)).2.length ≤ v.length := by
      split
      · simp
      · exact le_refl _
    exact Nat.add_le_add hhead ih

theorem totalSize_bucketPop_lt (bs : List (String × List Question)) (t : String)
    (q : Question) (l : List Question) (h : bs.lookup t = some (q :: l)) :
    totalSize (bucketPop bs t) < totalSize bs := by
  induction bs with
  | nil => simp at h
  | cons p bs ih =>
    obtain ⟨k, v⟩ := p
    rw [List.lookup_cons] at h
    by_cases hk : k = t
    · subst hk
      simp only [BEq.refl] at h
      have hv : v = q :: l := by simpa using h
      rw [bucketPop_cons, if_pos rfl, totalSize_cons, totalSize_cons]
      have h1 : v.tail.length < v.length := by simp [hv]
      exact Nat.add_lt_add_of_lt_of_le h1 (totalSize_bucketPop_le bs k)
    · have hbeq : (t == k) = false := by
        simp only [beq_eq_false_iff_ne, ne_eq]
        exact fun hc => hk hc.symm
      simp only [hbeq] at h
      rw [bucketPop_cons, if_neg hk, totalSize_cons, totalSize_cons]
      exact Nat.add_lt_add_left (ih h) _

/-- Whatever the loop eventually returns extends what was already selected. -/
theorem rrLoop_mono (n : Nat) :
    ∀ (fuel : Nat) (selected : List Question) buckets tl ti res,
      rrLoop n fuel selected buckets tl ti = .ok res →
      ∀ q ∈ selected, q ∈ res := by
  intro fuel
  induction fuel with
  | zero =>
    intro selected buckets tl ti res h
    simp [rrLoop] at h
  | succ fuel ih =>
    intro selected buckets tl ti res h q hq
    simp only [rrLoop] at h
    split at h
    · split at h
      · exact absurd h (by simp)
      · split at h
        · exact absurd h (by simp)
        · split at h
          · cases h
            exact hq
          · exact ih _ _ _ _ _ h q hq
        · exact ih _ _ _ _ _ h q (List.mem_append_left _ hq)
    · cases h
      exact hq

theorem getD_mem_of_lt {l : List String} {i : Nat} (h : i < l.length) :
    l.getD i "" ∈ l := by
  rw [List.getD_eq_getElem?_getD, List.getElem?_eq_getElem h, Option.getD_some]
  exact List.getElem_mem h

/-- With enough fuel the round-robin loop finishes normally (no crash, fuel
never exhausted): every iteration either draws one question out of a bucket
or retires one exhausted tag, and the loop stops before the modulo can be
taken over an empty tag list. -/
theorem rrLoop_ok (n : Nat) :
    ∀ (fuel : Nat) (selected : List Question)
      (buckets : List (String × List Question)) (tl : List String) (ti : Nat),
      tl ≠ [] → (∀ t ∈ tl, (buckets.lookup t).isSome) →
      totalSize buckets + tl.length ≤ fuel →
      ∃ res, rrLoop n fuel selected buckets tl ti = .ok res := by
  intro fuel
  induction fuel with
  | zero =>
    intro selected buckets tl ti hne hsome hfuel
    cases tl with
    | nil => exact absurd rfl hne
    | cons a l =>
      simp only [List.length_cons] at hfuel
      omega
  | succ fuel ih =>
    intro selected buckets tl ti hne hsome hfuel
    have hlen : 0 < tl.length := List.length_pos.mpr hne
    have hidx : ti % tl.length < tl.length := Nat.mod_lt _ hlen
    have htagmem : tl.getD (ti % tl.length) "" ∈ tl := getD_mem_of_lt hidx
    simp only [rrLoop]
    split
    · split
      · rename_i heq
        have := hsome _ htagmem
        rw [heq] at this
        exact absurd this (by simp)
      · rename_i heq
        split
        · exact ⟨selected, rfl⟩
        · rename_i htl'
          refine ih selected buckets _ (ti + 1) htl' ?_ ?_
          · intro t ht
            exact hsome t (List.mem_of_mem_erase ht)
          · have herase := List.length_erase_of_mem htagmem
            omega
      · rename_i qq bb heq
        refine ih (selected ++ [qq]) (bucketPop buckets _) tl (ti + 1) hne ?_ ?_
        · intro t ht
          by_cases hteq : t = tl.getD (ti % tl.length) ""
          · subst hteq
            rw [lookup_bucketPop_self _ _ _ heq]
            simp
          · rw [lookup_bucketPop_ne _ _ _ hteq]
            exact hsome t ht
        · have := totalSize_bucketPop_lt buckets _ qq bb heq
          omega
    · exact ⟨selected, rfl⟩

theorem mem_dedupFirstAux :
    ∀ (l seen : List String) (t : String),
      t ∈ dedupFirstAux seen l ↔ t ∈ l ∧ t ∉ seen := by
  intro l
  induction l with
  | nil => intro seen t; simp [dedupFirstAux]
  | cons x xs ih =>
    intro seen t
    rw [dedupFirstAux]
    by_cases hx : x ∈ seen
    · rw [if_pos hx, ih]
      constructor
      · exact fun h => ⟨List.mem_cons_of_mem _ h.1, h.2⟩
      · rintro ⟨hmem, hns⟩
        rcases List.mem_cons.mp hmem with rfl | hmem
        · exact absurd hx hns
        · exact ⟨hmem, hns⟩
    · rw [if_neg hx, List.mem_cons, ih]
      by_cases htx : t = x
      · subst htx
        simp [hx]
      · simp only [htx, false_or, List.mem_cons]

theorem mem_dedupFirst (l : List String) (t : String) :
    t ∈ dedupFirst l ↔ t ∈ l := by
  rw [dedupFirst, mem_dedupFirstAux]
  simp

theorem dedupFirstAux_nodup :
    ∀ (l seen : List String), (dedupFirstAux seen l).Nodup := by
  intro l
  induction l with
  | nil => intro seen; simp [dedupFirstAux]
  | cons x xs ih =>
    intro seen
    rw [dedupFirstAux]
    by_cases hx : x ∈ seen
    · rw [if_pos hx]; exact ih seen
    · rw [if_neg hx, List.nodup_cons]
      refine ⟨fun hc => ?_, ih _⟩
      have := (mem_dedupFirstAux xs (x :: seen) x).mp hc
      exact this.2 (List.mem_cons_self _ _)

theorem dedupFirst_nodup (l : List String) : (dedupFirst l).Nodup :=
  dedupFirstAux_nodup l []

theorem dedupFirstAux_length_le :
    ∀ (l seen : List String), (dedupFirstAux seen l).length ≤ l.length := by
  intro l
  induction l with
  | nil => intro seen; simp [dedupFirstAux]
  | cons x xs ih =>
    intro seen
    rw [dedupFirstAux]
    by_cases hx : x ∈ seen
    · rw [if_pos hx]
      exact le_trans (ih seen) (Nat.le_succ _)
    · rw [if_neg hx, List.length_cons, List.length_cons]
      exact Nat.succ_le_succ (ih _)

theorem dedupFirst_length_le (l : List String) :
    (dedupFirst l).length ≤ l.length :=
  dedupFirstAux_length_le l []

theorem dedupFirst_ne_nil (l : List String) (h : l ≠ []) : dedupFirst l ≠ [] := by
  cases l with
  | nil => exact absurd rfl h
  | cons x xs => simp [dedupFirst, dedupFirstAux]

theorem lookup_map_pair (f : String → List Question) :
    ∀ (l : List String) (t : String), t ∈ l →
      (l.map fun x => (x, f x)).lookup t = some (f t) := by
  intro l
  induction l with
  | nil => intro t ht; simp at ht
  | cons a l ih =>
    intro t ht
    rw [List.map_cons, List.lookup_cons]
    cases hbeq : t == a
    · have hne : t ≠ a := by simpa using hbeq
      have : t ∈ l := by
        rcases List.mem_cons.mp ht with h | h
        · exact absurd h hne
        · exact h
      exact ih t this
    · have hta : t = a := by simpa using hbeq
      subst hta
      rfl

theorem shuffleBuckets_fst_cons {ρ : Type}
    (shuffle : ρ → List Question → List Question × ρ) (r : ρ) (k : String)
    (v : List Question) (bs : List (String × List Question)) :
    (shuffleBuckets shuffle r ((k, v) :: bs)).1
      = (k, (shuffle r v).1) :: (shuffleBuckets shuffle (shuffle r v).2 bs).1 := rfl

theorem shuffleBuckets_lookup {ρ : Type}
    (shuffle : ρ → List Question → List Question × ρ)
    (hsh : ∀ (r : ρ) (l : List Question), (shuffle r l).1.Perm l) :
    ∀ (bs : List (String × List Question)) (r : ρ) (t : String)
      (b : List Question), bs.lookup t = some b →
      ∃ b', ((shuffleBuckets shuffle r bs).1).lookup t = some b' ∧ b'.Perm b := by
  intro bs
  induction bs with
  | nil => intro r t b h; simp at h
  | cons p bs ih =>
    intro r t b h
    obtain ⟨k, v⟩ := p
    rw [List.lookup_cons] at h
    rw [shuffleBuckets_fst_cons, List.lookup_cons]
    cases hbeq : t == k
    · rw [hbeq] at h
      exact ih _ t b h
    · rw [hbeq] at h
      have hv : v = b := by simpa using h
      exact ⟨(shuffle r v).1, rfl, hv ▸ hsh r v⟩

theorem totalSize_shuffleBuckets {ρ : Type}
    (shuffle : ρ → List Question → List Question × ρ)
    (hsh : ∀ (r : ρ) (l : List Question), (shuffle r l).1.Perm l) :
    ∀ (bs : List (String × List Question)) (r : ρ),
      totalSize ((shuffleBuckets shuffle r bs).1) = totalSize bs := by
  intro bs
  induction bs with
  | nil => intro r; rfl
  | cons p bs ih =>
    intro r
    obtain ⟨k, v⟩ := p
    rw [shuffleBuckets_fst_cons, totalSize_cons, totalSize_cons, ih]
    have : (shuffle r v).1.length = v.length := (hsh r v).length_eq
    simp [this]

theorem totalSize_mapSort (s : Stats) (bs : List (String × List Question)) :
    totalSize (bs.map fun p => (p.1, sortBucketDesc s p.2)) = totalSize bs := by
  induction bs with
  | nil => rfl
  | cons p bs ih =>
    rw [List.map_cons, totalSize_cons, totalSize_cons, ih]
    simp [sortBucketDesc]

theorem totalSize_rawBuckets_le (filtered : List Question) :
    ∀ (l : List String),
      totalSize (l.map fun t => (t, filtered.filter fun q => q.tag == t))
        ≤ l.length * filtered.length := by
  intro l
  induction l with
  | nil => simp [totalSize]
  | cons a l ih =>
    rw [List.map_cons, totalSize_cons, List.length_cons, Nat.succ_mul]
    exact Nat.add_le_add (List.length_filter_le _ _) ih |>.trans
      (by rw [Nat.add_comm])

/-- First-pass coverage of the round-robin loop: starting at rotation
position `pre.length` with every not-yet-visited bucket non-empty and
distinct tags, the loop draws at least one question of every remaining tag
whenever the requested count leaves room for all of them. -/
theorem rrLoop_coverage (n : Nat) :
    ∀ (post pre : List String) (fuel : Nat) (selected : List Question)
      (buckets : List (String × List Question)) (res : List Question),
      (pre ++ post).Nodup →
      (∀ t ∈ post, ∃ qh ql, buckets.lookup t = some (qh :: ql)) →
      (∀ t ∈ post, ∀ b, buckets.lookup t = some b → ∀ q ∈ b, q.tag = t) →
      selected.length + post.length ≤ n →
      rrLoop n fuel selected buckets (pre ++ post) pre.length = .ok res →
      ∀ t ∈ post, ∃ q ∈ res, q.tag = t := by
  intro post
  induction post with
  | nil =>
    intro pre fuel selected buckets res _ _ _ _ _ t ht
    simp at ht
  | cons t0 post ih =>
    intro pre fuel selected buckets res hnd hne htags hlen hrun
    cases fuel with
    | zero => simp [rrLoop] at hrun
    | succ fuel =>
      have hlt : selected.length < n := by
        simp only [List.length_cons] at hlen
        omega
      have hlistne : pre ++ t0 :: post ≠ [] := by simp
      have hlenlt : pre.length < (pre ++ t0 :: post).length := by simp
      have hmod : pre.length % (pre ++ t0 :: post).length = pre.length :=
        Nat.mod_eq_of_lt hlenlt
      have hget : (pre ++ t0 :: post).getD
          (pre.length % (pre ++ t0 :: post).length) "" = t0 := by
        rw [hmod, List.getD_eq_getElem?_getD,
          List.getElem?_append_right (le_refl pre.length)]
        simp
      obtain ⟨qh, ql, hbk⟩ := hne t0 (List.mem_cons_self _ _)
      simp only [rrLoop, if_pos hlt, hget, hbk] at hrun
      rw [if_neg hlistne] at hrun
      have hrw : pre ++ t0 :: post = (pre ++ [t0]) ++ post := by simp
      have hidx : pre.length + 1 = (pre ++ [t0]).length := by simp
      rw [hrw, hidx] at hrun
      have ht0post : t0 ∉ post := by
        have h2 : (t0 :: post).Nodup := (List.nodup_append.mp hnd).2.1
        exact (List.nodup_cons.mp h2).1
      have hcover := ih (pre ++ [t0]) fuel (selected ++ [qh])
        (bucketPop buckets t0) res
        (by rw [← hrw]; exact hnd)
        (by
          intro t ht
          have htne : t ≠ t0 := fun hc => ht0post (hc ▸ ht)
          rw [lookup_bucketPop_ne _ _ _ htne]
          exact hne t (List.mem_cons_of_mem _ ht))
        (by
          intro t ht b hb q hq
          have htne : t ≠ t0 := fun hc => ht0post (hc ▸ ht)
          rw [lookup_bucketPop_ne _ _ _ htne] at hb
          exact htags t (List.mem_cons_of_mem _ ht) b hb q hq)
        (by
          simp only [List.length_append, List.length_cons, List.length_nil]
            at hlen ⊢
          omega)
        hrun
      intro t ht
      rcases List.mem_cons.mp ht with rfl | ht
      · refine ⟨qh, ?_, ?_⟩
        · exact rrLoop_mono n fuel _ _ _ _ _ hrun qh
            (List.mem_append_right _ (List.mem_singleton.mpr rfl))
        · exact htags t (List.mem_cons_self _ _) _ hbk qh (List.mem_cons_self _ _)
      · exact hcover t ht

theorem sortBucketDesc_perm (s : Stats) (b : List Question) :
    (sortBucketDesc s b).Perm b :=
  List.mergeSort_perm b _

/-- Whatever branch prepares the buckets, every tag of the filtered pool is a
key whose stored bucket is a permutation of that tag's filtered questions. -/
theorem preparedBuckets_lookup {ρ : Type}
    (shuffle : ρ → List Question → List Question × ρ)
    (hsh : ∀ (r : ρ) (l : List Question), (shuffle r l).1.Perm l) (r : ρ)
    (filtered : List Question) (question_stats : Option Stats)
    (t : String) (ht : t ∈ tagListOf filtered) :
    ∃ b, ((preparedBuckets shuffle r filtered question_stats).1).lookup t
        = some b ∧ b.Perm (filtered.filter fun q => q.tag == t) := by
  have hraw : (rawBucketsOf filtered).lookup t
      = some (filtered.filter fun q => q.tag == t) :=
    lookup_map_pair _ _ t ht
  have hsorted : ∀ s : Stats,
      ((rawBucketsOf filtered).map fun p => (p.1, sortBucketDesc s p.2)).lookup t
        = some (sortBucketDesc s (filtered.filter fun q => q.tag == t)) := by
    intro s
    rw [rawBucketsOf, List.map_map]
    exact lookup_map_pair
      (fun x => sortBucketDesc s (filtered.filter fun q => q.tag == x)) _ t ht
  match question_stats with
  | none =>
      exact shuffleBuckets_lookup shuffle hsh _ r t _ hraw
  | some s =>
      by_cases hs : s.isEmpty
      · rw [preparedBuckets, if_pos hs]
        exact shuffleBuckets_lookup shuffle hsh _ r t _ hraw
      · rw [preparedBuckets, if_neg hs]
        exact ⟨_, hsorted s, sortBucketDesc_perm s _⟩

theorem totalSize_preparedBuckets_le {ρ : Type}
    (shuffle : ρ → List Question → List Question × ρ)
    (hsh : ∀ (r : ρ) (l : List Question), (shuffle r l).1.Perm l) (r : ρ)
    (filtered : List Question) (question_stats : Option Stats) :
    totalSize ((preparedBuckets shuffle r filtered question_stats).1)
      ≤ (tagListOf filtered).length * filtered.length := by
  have hraw := totalSize_rawBuckets_le filtered (tagListOf filtered)
  match question_stats with
  | none =>
      rw [preparedBuckets, totalSize_shuffleBuckets shuffle hsh]
      exact hraw
  | some s =>
      by_cases hs : s.isEmpty
      · rw [preparedBuckets, if_pos hs, totalSize_shuffleBuckets shuffle hsh]
        exact hraw
      · rw [preparedBuckets, if_neg hs]
        calc totalSize ((rawBucketsOf filtered).map
                fun p => (p.1, sortBucketDesc s p.2))
            = totalSize (rawBucketsOf filtered) := totalSize_mapSort s _
          _ ≤ _ := hraw

/-- C10: `select_balanced_questions` terminates normally on every input —
questions, tag set, count and stats map — given fuel beyond the loop's
iteration bound: every iteration either draws one question from a bucket or
removes one exhausted tag from the rotation, the loop breaks before the
modulo can be taken over an empty tag list, and no dict access misses, so
the result is always `ok` (never a crash, never fuel exhaustion). -/
theorem select_balanced_questions_terminates {ρ : Type}
    (shuffle : ρ → List Question → List Question × ρ)
    (hsh : ∀ (r : ρ) (l : List Question), (shuffle r l).1.Perm l)
    (fuel : Nat) (r : ρ) (questions : List Question)
    (selected_tags : List String) (num_questions : Nat)
    (question_stats : Option Stats)
    (hfuel : questions.length * questions.length + questions.length < fuel) :
    ∃ res r',
      select_balanced_questions shuffle fuel r questions selected_tags
        num_questions question_stats = (.ok res, r') := by
  by_cases h1 : filteredQuestions questions selected_tags = []
  · exact ⟨[], r, by simp [select_balanced_questions, h1]⟩
  by_cases h2 : (filteredQuestions questions selected_tags).length ≤ num_questions
  · refine ⟨(shuffle r (filteredQuestions questions selected_tags)).1,
      (shuffle r (filteredQuestions questions selected_tags)).2, ?_⟩
    simp [select_balanced_questions, h1, h2]
  · have htlne : tagListOf (filteredQuestions questions selected_tags) ≠ [] := by
      refine dedupFirst_ne_nil _ ?_
      intro hc
      apply h1
      cases hfq : filteredQuestions questions selected_tags with
      | nil => rfl
      | cons a l => rw [hfq] at hc; simp at hc
    have hkeys : ∀ t ∈ tagListOf (filteredQuestions questions selected_tags),
        (((preparedBuckets shuffle r (filteredQuestions questions selected_tags)
            question_stats).1).lookup t).isSome := by
      intro t ht
      obtain ⟨b, hb, _⟩ := preparedBuckets_lookup shuffle hsh r _ question_stats t ht
      simp [hb]
    have hfl : (filteredQuestions questions selected_tags).length
        ≤ questions.length := List.length_filter_le _ _
    have htl : (tagListOf (filteredQuestions questions selected_tags)).length
        ≤ (filteredQuestions questions selected_tags).length :=
      le_trans (dedupFirst_length_le _) (by simp)
    have hsize := totalSize_preparedBuckets_le shuffle hsh r
      (filteredQuestions questions selected_tags) question_stats
    have hbound : totalSize ((preparedBuckets shuffle r
          (filteredQuestions questions selected_tags) question_stats).1)
        + (tagListOf (filteredQuestions questions selected_tags)).length
          ≤ fuel := by
      have h3 : (tagListOf (filteredQuestions questions selected_tags)).length
            * (filteredQuestions questions selected_tags).length
          ≤ questions.length * questions.length :=
        Nat.mul_le_mul (le_trans htl hfl) hfl
      omega
    obtain ⟨sel, hok⟩ := rrLoop_ok num_questions fuel [] _
      (tagListOf (filteredQuestions questions selected_tags)) 0 htlne hkeys hbound
    refine ⟨(shuffle (preparedBuckets shuffle r
        (filteredQuestions questions selected_tags) question_stats).2 sel).1,
      (shuffle (preparedBuckets shuffle r
        (filteredQuestions questions selected_tags) question_stats).2 sel).2, ?_⟩
    simp [select_balanced_questions, h1, h2, hok]

/-- Closed witness for C10: a concrete five-question pool, identity shuffle
oracle, fuel 31 > 5*5+5. -/
theorem select_balanced_questions_terminates_witness :
    ∃ res r',
      select_balanced_questions (ρ := Unit) (fun r l => (l, r)) 31 ()
        [⟨1, "m", "p", ["a", "b"], 0, ""⟩, ⟨2, "m", "p", ["a", "b"], 0, ""⟩,
         ⟨3, "h", "p", ["a", "b"], 0, ""⟩, ⟨4, "h", "p", ["a", "b"], 0, ""⟩,
         ⟨5, "m", "p", ["a", "b"], 0, ""⟩] ["m", "h"] 3 none = (.ok res, r') :=
  select_balanced_questions_terminates (fun r l => (l, r))
    (fun _ l => List.Perm.refl l) 31 () _ ["m", "h"] 3 none (by decide)

/-- C3: round-robin fairness.  When the requested count is strictly below the
filtered pool size but at least the number of distinct tags present in the
filtered pool, the subset returned by `select_balanced_questions` contains at
least one question from every active tag whose bucket is non-empty (that is,
every tag carried by some filtered question). -/
theorem select_balanced_questions_tag_coverage {ρ : Type}
    (shuffle : ρ → List Question → List Question × ρ)
    (hsh : ∀ (r : ρ) (l : List Question), (shuffle r l).1.Perm l)
    (fuel : Nat) (r : ρ) (questions : List Question)
    (selected_tags : List String) (num_questions : Nat)
    (question_stats : Option Stats)
    (hcount : num_questions < (filteredQuestions questions selected_tags).length)
    (hntags : (tagListOf (filteredQuestions questions selected_tags)).length
      ≤ num_questions)
    (res : List Question) (r' : ρ)
    (hrun : select_balanced_questions shuffle fuel r questions selected_tags
        num_questions question_stats = (.ok res, r')) :
    ∀ t : String, (∃ q ∈ filteredQuestions questions selected_tags, q.tag = t) →
      ∃ q ∈ res, q.tag = t := by
  have h1 : filteredQuestions questions selected_tags ≠ [] := by
    intro hc
    rw [hc] at hcount
    simp at hcount
  have h2 : ¬ (filteredQuestions questions selected_tags).length ≤ num_questions :=
    not_le.mpr hcount
  simp only [select_balanced_questions, if_neg h1, if_neg h2] at hrun
  cases hloop : rrLoop num_questions fuel []
      ((preparedBuckets shuffle r (filteredQuestions questions selected_tags)
        question_stats).1)
      (tagListOf (filteredQuestions questions selected_tags)) 0 with
  | crash =>
    rw [hloop] at hrun
    simp at hrun
  | outOfFuel =>
    rw [hloop] at hrun
    simp at hrun
  | ok sel =>
    rw [hloop] at hrun
    simp only [Prod.mk.injEq, PyResult.ok.injEq] at hrun
    obtain ⟨hres, -⟩ := hrun
    have hcov := rrLoop_coverage num_questions
      (tagListOf (filteredQuestions questions selected_tags)) [] fuel []
      ((preparedBuckets shuffle r (filteredQuestions questions selected_tags)
        question_stats).1) sel
      (by
        rw [List.nil_append, tagListOf]
        exact dedupFirst_nodup _)
      (by
        intro t ht
        obtain ⟨b, hb, hperm⟩ := preparedBuckets_lookup shuffle hsh r _
          question_stats t ht
        have hex : ∃ q ∈ filteredQuestions questions selected_tags, q.tag = t := by
          rw [tagListOf, mem_dedupFirst] at ht
          simpa using ht
        obtain ⟨q, hqf, hqt⟩ := hex
        have hqfil : q ∈ (filteredQuestions questions selected_tags).filter
            (fun q => q.tag == t) :=
          List.mem_filter.mpr ⟨hqf, by simp [hqt]⟩
        cases hb' : b with
        | nil =>
          rw [hb'] at hperm
          have := hperm.length_eq
          simp only [List.length_nil] at this
          have hpos : 0 < ((filteredQuestions questions selected_tags).filter
              (fun q => q.tag == t)).length :=
            List.length_pos.mpr (fun hc => by rw [hc] at hqfil; simp at hqfil)
          omega
        | cons qh ql => exact ⟨qh, ql, hb' ▸ hb⟩)
      (by
        intro t ht b hb q hq
        obtain ⟨b0, hb0, hperm⟩ := preparedBuckets_lookup shuffle hsh r _
          question_stats t ht
        rw [hb0] at hb
        have hbb : b0 = b := by simpa using hb
        rw [← hbb] at hq
        have hqfil := hperm.mem_iff.mp hq
        have := (List.mem_filter.mp hqfil).2
        simpa using this)
      (by simpa using hntags)
      (by simpa using hloop)
    intro t hex
    obtain ⟨q, hqf, hqt⟩ := hex
    have htl : t ∈ tagListOf (filteredQuestions questions selected_tags) := by
      rw [tagListOf, mem_dedupFirst]
      exact List.mem_map.mpr ⟨q, hqf, hqt⟩
    obtain ⟨q', hq'sel, hq't⟩ := hcov t htl
    refine ⟨q', ?_, hq't⟩
    rw [← hres]
    exact (hsh _ sel).mem_iff.mpr hq'sel

/-- Closed witness for C3: five questions over tags m, h with count 3; the
returned subset (identity oracle) contains a question of each tag. -/
theorem select_balanced_questions_tag_coverage_witness :
    (∃ q ∈ [(⟨1, "m", "p", ["a", "b"], 0, ""⟩ : Question),
        ⟨3, "h", "p", ["a", "b"], 0, ""⟩, ⟨2, "m", "p", ["a", "b"], 0, ""⟩],
      q.tag = "h") ∧
    (∃ q ∈ [(⟨1, "m", "p", ["a", "b"], 0, ""⟩ : Question),
        ⟨3, "h", "p", ["a", "b"], 0, ""⟩, ⟨2, "m", "p", ["a", "b"], 0, ""⟩],
      q.tag = "m") := by
  constructor
  · exact select_balanced_questions_tag_coverage (ρ := Unit) (fun r l => (l, r))
      (fun _ l => List.Perm.refl l) 31 ()
      [⟨1, "m", "p", ["a", "b"], 0, ""⟩, ⟨2, "m", "p", ["a", "b"], 0, ""⟩,
       ⟨3, "h", "p", ["a", "b"], 0, ""⟩, ⟨4, "h", "p", ["a", "b"], 0, ""⟩,
       ⟨5, "m", "p", ["a", "b"], 0, ""⟩] ["m", "h"] 3 none (by decide) (by decide)
      _ () (by decide) "h" ⟨⟨3, "h", "p", ["a", "b"], 0, ""⟩, by decide, rfl⟩
  · exact select_balanced_questions_tag_coverage (ρ := Unit) (fun r l => (l, r))
      (fun _ l => List.Perm.refl l) 31 ()
      [⟨1, "m", "p", ["a", "b"], 0, ""⟩, ⟨2, "m", "p", ["a", "b"], 0, ""⟩,
       ⟨3, "h", "p", ["a", "b"], 0, ""⟩, ⟨4, "h", "p", ["a", "b"], 0, ""⟩,
       ⟨5, "m", "p", ["a", "b"], 0, ""⟩] ["m", "h"] 3 none (by decide) (by decide)
      _ () (by decide) "m" ⟨⟨1, "m", "p", ["a", "b"], 0, ""⟩, by decide, rfl⟩

end Knowting
